import Mathlib

/-!
Verification of the zebr0-lxd resource lifecycle engine.

The Python source (`zebr0_lxd/__init__.py`) is shallowly embedded below:
* JSON documents become the inductive `Json`; Python `dict.get` becomes
  `dictGet` (raising `attributeError` on non-dicts, returning `null` on a
  missing key, exactly like Python's `dict.get`).
* Python exceptions become the inductive `Err`.
* The requests session becomes a hypervisor step function
  `step : H → Request → Json × H`; stateful client code runs in the monad
  `M H α := H → Except Err α × H × List Request`, which threads the
  hypervisor state and records every request issued, in order.
* The response hook (error detection and async-operation waiting) is
  folded into `doRequest`, with an explicit fuel bound on the (in the wild
  unbounded) recursion of the waiter through the hook.
-/

set_option autoImplicit false

namespace ZebrLxd

/-- A JSON value, as decoded from a hypervisor response body or written in a
stack configuration document. -/
inductive Json where
  | null
  | bool (b : Bool)
  | num (n : Int)
  | str (s : String)
  | arr (xs : List Json)
  | obj (fields : List (String × Json))

/-- The failures the client can raise, mirroring the Python exceptions:
`typeError` for string concatenation with a non-string and iteration over a
non-iterable, `attributeError` for `.get` on a non-dict, and one constructor
per `raise Exception(...)` site in the source. `fuelExhausted` is an artefact
of bounding the (unbounded) hook recursion. -/
inductive Err where
  | typeError
  | attributeError
  | fuelExhausted
  | hypervisorError (body : Json)
  | operationFailed (body : Json)
  | resourceCreationFailed
  | resourceDeletionFailed
  | containerStartingFailed
  | containerStoppingFailed

/-- HTTP method of a request issued on the session. -/
inductive Method where
  | get
  | post
  | put
  | delete
deriving DecidableEq

/-- One request issued to the hypervisor: method, full url, optional JSON
body. -/
structure Request where
  method : Method
  url : String
  body : Option Json

/-- First value bound to a key in a field list, `Json.null` when absent,
mirroring Python `dict.get`. -/
def lookupField : List (String × Json) → String → Json
  | [], _ => Json.null
  | (k, v) :: rest, key => if k = key then v else lookupField rest key

/-- Python `x.get(key)`: only valid on dicts, otherwise `AttributeError`. -/
def dictGet : Json → String → Except Err Json
  | Json.obj fields, key => Except.ok (lookupField fields key)
  | _, _ => Except.error Err.attributeError

/-- Python string concatenation with an arbitrary value: `TypeError` unless
the value is a string. -/
def asString : Json → Except Err String
  | Json.str s => Except.ok s
  | _ => Except.error Err.typeError

/-- Python `a == u` where `u` is a string and `a` an arbitrary decoded JSON
value: true exactly when `a` is the same string. -/
def eqStr : Json → String → Bool
  | Json.str s, t => decide (s = t)
  | _, _ => false

/-- Python `v == n` where `n` is an int literal: true exactly when `v` is
the same number. -/
def eqInt : Json → Int → Bool
  | Json.num m, n => decide (m = n)
  | _, _ => false

/-- Python iteration (`filter`, `for`) over a decoded JSON value: lists give
their elements, dicts their keys, strings their characters, everything else
raises `TypeError`. -/
def iterElems : Json → Except Err (List Json)
  | Json.arr xs => Except.ok xs
  | Json.obj fields => Except.ok (fields.map (fun p => Json.str p.1))
  | Json.str s => Except.ok (s.data.map (fun c => Json.str (String.mk [c])))
  | _ => Except.error Err.typeError

/-- Python `x or []` followed by iteration, as used on the values of the
stack configuration document: falsy values give the empty list. -/
def iterConfigValue : Json → Except Err (List Json)
  | Json.null => Except.ok []
  | Json.bool b => if b then Except.error Err.typeError else Except.ok []
  | Json.num n => if n = 0 then Except.ok [] else Except.error Err.typeError
  | Json.str s => Except.ok (s.data.map (fun c => Json.str (String.mk [c])))
  | Json.arr xs => Except.ok xs
  | Json.obj fields => Except.ok (fields.map (fun p => Json.str p.1))

/-- The client monad: threads the hypervisor state `H`, records the list of
requests issued (in order), and stops on the first raised exception. -/
def M (H : Type) (α : Type) : Type := H → Except Err α × H × List Request

instance (H : Type) : Monad (M H) where
  pure a := fun h => (Except.ok a, h, [])
  bind x f := fun h =>
    match x h with
    | (Except.ok a, h1, t1) =>
      match f a h1 with
      | (res, h2, t2) => (res, h2, t1 ++ t2)
    | (Except.error e, h1, t1) => (Except.error e, h1, t1)

/-- Run a pure, request-free computation in the client monad. -/
def liftE {H : Type} {α : Type} (x : Except Err α) : M H α := fun h => (x, h, [])

/-- Raise an exception. -/
def throwM {H : Type} {α : Type} (e : Err) : M H α := fun h => (Except.error e, h, [])

theorem bind_apply {H α β : Type} (x : M H α) (f : α → M H β) (h : H) :
    (x >>= f) h =
      match x h with
      | (Except.ok a, h1, t1) =>
        match f a h1 with
        | (res, h2, t2) => (res, h2, t1 ++ t2)
      | (Except.error e, h1, t1) => (Except.error e, h1, t1) := rfl

theorem pure_apply {H α : Type} (a : α) (h : H) :
    (pure a : M H α) h = (Except.ok a, h, []) := rfl

theorem liftE_apply {H α : Type} (x : Except Err α) (h : H) :
    (liftE x : M H α) h = (x, h, []) := rfl

theorem throwM_apply {H α : Type} (e : Err) (h : H) :
    (throwM e : M H α) h = (Except.error e, h, []) := rfl

/-- `api_url` from the source: the fixed unix-socket endpoint. -/
def api_url : String := "http+unix://%2Fvar%2Fsnap%2Flxd%2Fcommon%2Flxd%2Funix.socket"

/-- The request issued by `session.get(api_url + operation + "/wait")` in
the hook. -/
def waitRequest (op : String) : Request :=
  Request.mk Method.get (api_url ++ op ++ "/wait") none

/-- Outcome of the hook's classification of a decoded response body by its
`type` field: raise, pass through, or wait on an async operation handle. -/
inductive HookOut where
  | err (e : Err)
  | sync
  | async (op : String)

/-- The classification part of the hook: `json.get("type")`, raise
`HypervisorError` on `"error"`, extract `api_url + json.get("operation")`
on `"async"` (a `TypeError` when the handle is not a string), pass through
otherwise. -/
def hookOutcome (j : Json) : HookOut :=
  match dictGet j "type" with
  | Except.error e => HookOut.err e
  | Except.ok ty =>
    if eqStr ty "error" then HookOut.err (Err.hypervisorError j)
    else if eqStr ty "async" then
      match dictGet j "operation" with
      | Except.error e => HookOut.err e
      | Except.ok op =>
        match asString op with
        | Except.error e => HookOut.err e
        | Except.ok opS => HookOut.async opS
    else HookOut.sync

/-- The status check on a wait response `wj`:
`wait_json.get("metadata").get("status_code") != 200` raises
`OperationFailed` carrying the full wait response; otherwise the original
response `j` passes through. -/
def waitCheck (j wj : Json) : Except Err Json :=
  match dictGet wj "metadata" with
  | Except.error e => Except.error e
  | Except.ok md =>
    match dictGet md "status_code" with
    | Except.error e => Except.error e
    | Except.ok sc =>
      if eqInt sc 200 then Except.ok j
      else Except.error (Err.operationFailed wj)

/-- `doRequest step fuel req` issues `req` through the session and runs the
response hook from `main` on the response: decode, classify by the `type`
field, raise on `type == "error"`, and on `type == "async"` issue a GET to
`api_url + operation + "/wait"` (itself through the hook) and raise unless
the wait response's `metadata.status_code` is 200. `fuel` bounds the hook
recursion depth. -/
def doRequest {H : Type} (step : H → Request → Json × H) : Nat → Request → M H Json
  | 0, req => fun h0 =>
    match hookOutcome (step h0 req).1 with
    | HookOut.err e => (Except.error e, (step h0 req).2, [req])
    | HookOut.sync => (Except.ok (step h0 req).1, (step h0 req).2, [req])
    | HookOut.async _ => (Except.error Err.fuelExhausted, (step h0 req).2, [req])
  | fuel + 1, req => fun h0 =>
    match hookOutcome (step h0 req).1 with
    | HookOut.err e => (Except.error e, (step h0 req).2, [req])
    | HookOut.sync => (Except.ok (step h0 req).1, (step h0 req).2, [req])
    | HookOut.async opS =>
      match doRequest step fuel (waitRequest opS) (step h0 req).2 with
      | (Except.error e, h2, t2) => (Except.error e, h2, req :: t2)
      | (Except.ok wj, h2, t2) =>
        match waitCheck (step h0 req).1 wj with
        | Except.error e => (Except.error e, h2, req :: t2)
        | Except.ok out => (Except.ok out, h2, req :: t2)

/-- The `Resource` class: a collection url (relative, e.g. `/1.0/containers`)
and the configuration document of one specific resource. -/
structure Resource where
  collection_url : String
  resource_config : Json

/-- `Resource._get_full_collection_url`. -/
def Resource.get_full_collection_url (r : Resource) : String :=
  api_url ++ r.collection_url

/-- `Resource._get_name`: `resource_config.get("name")`. -/
def Resource.get_name (r : Resource) : Except Err Json :=
  dictGet r.resource_config "name"

/-- `Resource._get_element_url`: `collection_url + "/" + name`; `TypeError`
when the name is absent or not a string. -/
def Resource.get_element_url (r : Resource) : Except Err String := do
  let n ← r.get_name
  let s ← asString n
  pure (r.collection_url ++ "/" ++ s)

/-- `Resource._get_full_element_url`. -/
def Resource.get_full_element_url (r : Resource) : Except Err String := do
  let n ← r.get_name
  let s ← asString n
  pure (r.get_full_collection_url ++ "/" ++ s)

/-- `Resource._log`: the log call evaluates `_get_element_url()` as an
argument, so it raises exactly when url construction does. -/
def Resource.log (r : Resource) : Except Err Unit := do
  let _ ← r.get_element_url
  pure ()

/-- The pure tail of `_exists`: Python
`any(filter(lambda a: a == self._get_element_url(), elems))`; the lambda
re-evaluates `_get_element_url()` at each element and `any` stops at the
first hit. -/
def anyElementUrl (r : Resource) : List Json → Except Err Bool
  | [] => Except.ok false
  | a :: rest => do
    let u ← r.get_element_url
    if eqStr a u then pure true else anyElementUrl r rest

/-- Decoding part of `_exists`, applied to the collection listing response
body: `response.json().get("metadata")` then the filtered membership test. -/
def existsBody (r : Resource) (j : Json) : Except Err Bool := do
  let md ← dictGet j "metadata"
  let elems ← iterElems md
  anyElementUrl r elems

/-- The GET issued by `_exists` on the collection url. -/
def listRequest (r : Resource) : Request :=
  Request.mk Method.get r.get_full_collection_url none

/-- `Resource._exists`: GET the collection url and check whether the
resource's element url is listed in the response metadata. -/
def Resource.exists {H : Type} (step : H → Request → Json × H) (fuel : Nat)
    (r : Resource) : M H Bool := do
  let j ← doRequest step fuel (listRequest r)
  liftE (existsBody r j)

/-- The POST issued by `Resource.create`: the resource configuration, sent
to the collection url. -/
def postRequest (r : Resource) : Request :=
  Request.mk Method.post r.get_full_collection_url (some r.resource_config)

/-- `Resource.create`: log, check existence, and only when absent POST the
configuration to the collection url and re-check, raising
`resourceCreationFailed` when the re-check still fails. -/
def Resource.create {H : Type} (step : H → Request → Json × H) (fuel : Nat)
    (r : Resource) : M H Unit := do
  liftE r.log
  let e ← Resource.exists step fuel r
  if e then pure ()
  else do
    liftE r.log
    let _ ← doRequest step fuel (postRequest r)
    let e2 ← Resource.exists step fuel r
    if e2 then pure () else throwM Err.resourceCreationFailed

/-- `Resource.delete`: log, check existence, and only when present DELETE
the element url and re-check, raising `resourceDeletionFailed` when the
resource is still listed. -/
def Resource.delete {H : Type} (step : H → Request → Json × H) (fuel : Nat)
    (r : Resource) : M H Unit := do
  liftE r.log
  let e ← Resource.exists step fuel r
  if e then do
    liftE r.log
    let u ← liftE r.get_full_element_url
    let _ ← doRequest step fuel (Request.mk Method.delete u none)
    let e2 ← Resource.exists step fuel r
    if e2 then throwM Err.resourceDeletionFailed else pure ()
  else pure ()

/-- Decoding part of `_is_running`, applied to the element detail response:
`.json().get("metadata").get("status") == "Running"`. -/
def runningBody (j : Json) : Except Err Bool := do
  let md ← dictGet j "metadata"
  let st ← dictGet md "status"
  pure (eqStr st "Running")

/-- `Container._is_running`: `self._exists() and <detail fetch status check>`;
the element detail GET is only issued when the existence check passed. -/
def Container.is_running {H : Type} (step : H → Request → Json × H) (fuel : Nat)
    (c : Resource) : M H Bool := do
  let e ← Resource.exists step fuel c
  if e then do
    let u ← liftE c.get_full_element_url
    let j ← doRequest step fuel (Request.mk Method.get u none)
    liftE (runningBody j)
  else pure false

/-- Body of the state-change PUT: `{"action": action}`. -/
def actionBody (action : String) : Json :=
  Json.obj [("action", Json.str action)]

/-- `Container.start`: when not running, PUT `{"action": "start"}` on the
element's `/state` url and re-check, raising `containerStartingFailed` when
the container still is not running. -/
def Container.start {H : Type} (step : H → Request → Json × H) (fuel : Nat)
    (c : Resource) : M H Unit := do
  let running ← Container.is_running step fuel c
  if running then pure ()
  else do
    liftE c.log
    let u ← liftE c.get_full_element_url
    let _ ← doRequest step fuel (Request.mk Method.put (u ++ "/state") (some (actionBody "start")))
    let running2 ← Container.is_running step fuel c
    if running2 then pure () else throwM Err.containerStartingFailed

/-- `Container.stop`: when running, PUT `{"action": "stop"}` on the
element's `/state` url and re-check, raising `containerStoppingFailed` when
the container still is running. -/
def Container.stop {H : Type} (step : H → Request → Json × H) (fuel : Nat)
    (c : Resource) : M H Unit := do
  let running ← Container.is_running step fuel c
  if running then do
    liftE c.log
    let u ← liftE c.get_full_element_url
    let _ ← doRequest step fuel (Request.mk Method.put (u ++ "/state") (some (actionBody "stop")))
    let running2 ← Container.is_running step fuel c
    if running2 then throwM Err.containerStoppingFailed else pure ()
  else pure ()

/-- Sequential iteration of a Python `for` loop issuing lifecycle calls. -/
def forEach {H α : Type} : List α → (α → M H Unit) → M H Unit
  | [], _ => pure ()
  | a :: rest, f => do
    f a
    forEach rest f

/-- `config.get(key) or []` followed by iteration over the result. -/
def collItems (config : Json) (key : String) : Except Err (List Json) := do
  let v ← dictGet config key
  iterConfigValue v

/-- Module-level `create(session, config)`: storage pools, then networks,
then profiles, then containers, each collection in declaration order. -/
def create {H : Type} (step : H → Request → Json × H) (fuel : Nat)
    (config : Json) : M H Unit := do
  let ps ← liftE (collItems config "storage_pools")
  forEach ps (fun item => Resource.create step fuel (Resource.mk "/1.0/storage-pools" item))
  let ns ← liftE (collItems config "networks")
  forEach ns (fun item => Resource.create step fuel (Resource.mk "/1.0/networks" item))
  let prs ← liftE (collItems config "profiles")
  forEach prs (fun item => Resource.create step fuel (Resource.mk "/1.0/profiles" item))
  let cs ← liftE (collItems config "containers")
  forEach cs (fun item => Resource.create step fuel (Resource.mk "/1.0/containers" item))

/-- Module-level `start(session, config)`. -/
def start {H : Type} (step : H → Request → Json × H) (fuel : Nat)
    (config : Json) : M H Unit := do
  let cs ← liftE (collItems config "containers")
  forEach cs (fun item => Container.start step fuel (Resource.mk "/1.0/containers" item))

/-- Module-level `stop(session, config)`. -/
def stop {H : Type} (step : H → Request → Json × H) (fuel : Nat)
    (config : Json) : M H Unit := do
  let cs ← liftE (collItems config "containers")
  forEach cs (fun item => Container.stop step fuel (Resource.mk "/1.0/containers" item))

/-- Module-level `delete(session, config)`: containers, then profiles, then
networks, then storage pools, each collection in declaration order. -/
def delete {H : Type} (step : H → Request → Json × H) (fuel : Nat)
    (config : Json) : M H Unit := do
  let cs ← liftE (collItems config "containers")
  forEach cs (fun item => Resource.delete step fuel (Resource.mk "/1.0/containers" item))
  let prs ← liftE (collItems config "profiles")
  forEach prs (fun item => Resource.delete step fuel (Resource.mk "/1.0/profiles" item))
  let ns ← liftE (collItems config "networks")
  forEach ns (fun item => Resource.delete step fuel (Resource.mk "/1.0/networks" item))
  let ps ← liftE (collItems config "storage_pools")
  forEach ps (fun item => Resource.delete step fuel (Resource.mk "/1.0/storage-pools" item))

/-- The commands dispatched by `main` via `globals()[args.command]`. -/
inductive Cmd where
  | create
  | start
  | stop
  | delete
deriving DecidableEq

/-- Dispatch of the positional `command` argument onto the four
orchestrator functions. -/
def applyCmd {H : Type} (step : H → Request → Json × H) (fuel : Nat)
    (cmd : Cmd) (config : Json) : M H Unit :=
  match cmd with
  | Cmd.create => create step fuel config
  | Cmd.start => start step fuel config
  | Cmd.stop => stop step fuel config
  | Cmd.delete => delete step fuel config

/-! ### Helper lemmas -/

theorem string_ne_slash_extend (s t : String) : ¬ (s = s ++ "/" ++ t) := by
  intro h
  have h2 := congrArg String.length h
  simp only [String.length_append] at h2
  have h1 : "/".length = 1 := rfl
  omega

theorem string_append_left_cancel {a e u : String} (h : a ++ e = a ++ u) : e = u := by
  have h2 := congrArg String.data h
  simp only [String.data_append] at h2
  exact String.ext (List.append_cancel_left h2)

theorem eqStr_true_iff (a : Json) (u : String) : eqStr a u = true ↔ a = Json.str u := by
  cases a <;> simp [eqStr]

/-- Every request recorded by `doRequest` is either the triggering request
itself or a GET issued by the async waiter. -/
theorem doRequest_trace_mem {H : Type} (step : H → Request → Json × H) :
    ∀ (fuel : Nat) (req : Request) (h : H) (q : Request),
      q ∈ (doRequest step fuel req h).2.2 → q = req ∨ q.method = Method.get := by
  intro fuel
  induction fuel with
  | zero =>
    intro req h q hq
    unfold doRequest at hq
    split at hq <;> (simp at hq; subst hq; exact Or.inl rfl)
  | succ fuel ih =>
    intro req h q hq
    unfold doRequest at hq
    split at hq
    · simp at hq; subst hq; exact Or.inl rfl
    · simp at hq; subst hq; exact Or.inl rfl
    · next opS hout =>
      have hcons : ∀ (t2 : List Request),
          (∀ p ∈ t2, p = waitRequest opS ∨ p.method = Method.get) →
          q ∈ req :: t2 → q = req ∨ q.method = Method.get := by
        intro t2 ht2 hm
        rcases List.mem_cons.mp hm with rfl | hm2
        · exact Or.inl rfl
        · rcases ht2 q hm2 with rfl | hmeth
          · exact Or.inr rfl
          · exact Or.inr hmeth
      split at hq
      · next e h2 t2 hrec =>
        refine hcons t2 (fun p hp => ?_) hq
        have hmem := ih (waitRequest opS) (step h req).2 p
        rw [hrec] at hmem
        exact hmem hp
      · next wj h2 t2 hrec =>
        have ht2 : ∀ p ∈ t2, p = waitRequest opS ∨ p.method = Method.get := by
          intro p hp
          have hmem := ih (waitRequest opS) (step h req).2 p
          rw [hrec] at hmem
          exact hmem hp
        split at hq
        · exact hcons t2 ht2 hq
        · exact hcons t2 ht2 hq

/-- Equation form of `doRequest_trace_mem`. -/
theorem doRequest_trace {H : Type} (step : H → Request → Json × H)
    (fuel : Nat) (req : Request) (h : H) (res : Except Err Json) (h1 : H) (t : List Request)
    (hrun : doRequest step fuel req h = (res, h1, t)) :
    ∀ q ∈ t, q = req ∨ q.method = Method.get := by
  intro q hq
  have hmem := doRequest_trace_mem step fuel req h q
  rw [hrun] at hmem
  exact hmem hq

/-- A synchronous hypervisor response envelope with the given metadata. -/
def mkSync (md : Json) : Json :=
  Json.obj [("type", Json.str "sync"), ("metadata", md)]

/-- A synchronous collection listing response whose metadata is the given
sequence. -/
def listingOf (xs : List Json) : Json := mkSync (Json.arr xs)

theorem hookOutcome_mkSync (md : Json) : hookOutcome (mkSync md) = HookOut.sync := rfl

/-- A request whose response is a synchronous envelope passes the hook
unchanged, and the only request issued is the request itself. -/
theorem doRequest_sync_step {H : Type} (step : H → Request → Json × H)
    (fuel : Nat) (req : Request) (h : H) (md : Json)
    (hstep : (step h req).1 = mkSync md) :
    doRequest step fuel req h = (Except.ok (mkSync md), (step h req).2, [req]) := by
  cases fuel <;> (unfold doRequest; rw [hstep, hookOutcome_mkSync])

/-- Running `_exists` is running its collection GET and then the pure body
on the response. -/
theorem exists_run {H : Type} (step : H → Request → Json × H) (fuel : Nat)
    (r : Resource) (h : H) :
    Resource.exists step fuel r h =
      (match doRequest step fuel (listRequest r) h with
       | (Except.ok j, h1, t1) => (existsBody r j, h1, t1)
       | (Except.error e, h1, t1) => (Except.error e, h1, t1)) := by
  unfold Resource.exists
  rw [bind_apply]
  rcases doRequest step fuel (listRequest r) h with ⟨res, h1, t1⟩
  cases res <;> simp [liftE]

/-- `_exists` only ever issues GET requests. -/
theorem exists_trace_get {H : Type} (step : H → Request → Json × H) (fuel : Nat)
    (r : Resource) (h : H) (res : Except Err Bool) (h1 : H) (t : List Request)
    (hex : Resource.exists step fuel r h = (res, h1, t)) :
    ∀ q ∈ t, q.method = Method.get := by
  rw [exists_run] at hex
  rcases hdo : doRequest step fuel (listRequest r) h with ⟨res0, h0, t0⟩
  rw [hdo] at hex
  have htr := doRequest_trace step fuel (listRequest r) h res0 h0 t0 hdo
  have hts : t = t0 := by
    cases res0 <;> (injection hex with ha hb; injection hb with hb1 hb2; exact hb2.symm)
  subst hts
  intro q hq
  rcases htr q hq with rfl | hm
  · rfl
  · exact hm

theorem anyElementUrl_eq_any (r : Resource) (u : String)
    (hu : r.get_element_url = Except.ok u) :
    ∀ elems : List Json, anyElementUrl r elems = Except.ok (elems.any (fun a => eqStr a u)) := by
  intro elems
  induction elems with
  | nil => rfl
  | cons a rest ih =>
    unfold anyElementUrl
    rw [hu]
    have hbind : ∀ (f : String → Except Err Bool), (Except.ok u >>= f) = f u := fun _ => rfl
    rw [hbind]
    cases heq : eqStr a u
    · simp [heq, ih, List.any_cons]
    · simp [heq, List.any_cons]
      rfl

theorem existsBody_listing (r : Resource) (xs : List Json) :
    existsBody r (listingOf xs) = anyElementUrl r xs := rfl

/-- On a hypervisor that answers the collection GET with a synchronous
listing, `_exists` returns the membership test of the element url in the
listing and issues exactly the collection GET. -/
theorem exists_listing_step {H : Type} (step : H → Request → Json × H)
    (fuel : Nat) (r : Resource) (h : H) (xs : List Json) (u : String)
    (hstep : (step h (listRequest r)).1 = listingOf xs)
    (hu : r.get_element_url = Except.ok u) :
    Resource.exists step fuel r h =
      (Except.ok (xs.any (fun a => eqStr a u)), (step h (listRequest r)).2, [listRequest r]) := by
  rw [exists_run]
  rw [doRequest_sync_step step fuel (listRequest r) h (Json.arr xs) hstep]
  show (existsBody r (listingOf xs), _, _) = _
  rw [existsBody_listing, anyElementUrl_eq_any r u hu]

/-! ### Pure reductions for the `Except` monad and for resource urls -/

theorem exceptOk_bind {α β : Type} (a : α) (f : α → Except Err β) :
    (Except.ok a >>= f) = f a := rfl

theorem exceptError_bind {α β : Type} (e : Err) (f : α → Except Err β) :
    ((Except.error e : Except Err α) >>= f) = Except.error e := rfl

theorem get_element_url_of_name (curl : String) (cfg : Json) (name : String)
    (hn : dictGet cfg "name" = Except.ok (Json.str name)) :
    (Resource.mk curl cfg).get_element_url = Except.ok (curl ++ "/" ++ name) := by
  unfold Resource.get_element_url Resource.get_name
  rw [show dictGet (Resource.mk curl cfg).resource_config "name" = Except.ok (Json.str name) from hn]
  rw [exceptOk_bind]
  rfl

theorem get_full_element_url_of_name (curl : String) (cfg : Json) (name : String)
    (hn : dictGet cfg "name" = Except.ok (Json.str name)) :
    (Resource.mk curl cfg).get_full_element_url = Except.ok (api_url ++ curl ++ "/" ++ name) := by
  unfold Resource.get_full_element_url Resource.get_name
  rw [show dictGet (Resource.mk curl cfg).resource_config "name" = Except.ok (Json.str name) from hn]
  rw [exceptOk_bind]
  rfl

theorem log_of_name (curl : String) (cfg : Json) (name : String)
    (hn : dictGet cfg "name" = Except.ok (Json.str name)) :
    (Resource.mk curl cfg).log = Except.ok () := by
  unfold Resource.log
  rw [get_element_url_of_name curl cfg name hn]
  rfl

theorem log_of_url_error (r : Resource) (e : Err)
    (he : r.get_element_url = Except.error e) :
    r.log = Except.error e := by
  unfold Resource.log
  rw [he]
  rfl

/-- A resource specification document carrying only a name. -/
def specOf (name : String) : Json := Json.obj [("name", Json.str name)]

theorem dictGet_specOf (name : String) : dictGet (specOf name) "name" = Except.ok (Json.str name) := rfl

/-! ### Concrete hypervisor models used to settle the claims -/

/-- A hypervisor that answers every request with the same fixed collection
listing. -/
def stepListing (xs : List Json) : Unit → Request → Json × Unit :=
  fun _ _ => (listingOf xs, ())

/-- The name carried by a request body, the way the hypervisor reads a
posted resource specification. -/
def nameOf (body : Option Json) : Option String :=
  match body with
  | some b =>
    match dictGet b "name" with
    | Except.ok (Json.str n) => some n
    | _ => none
  | none => none

/-- A well-behaved hypervisor for one collection, keyed by the collection's
relative url: state is the list of names present; GET answers the listing of
element urls, POST to the collection url records the posted name, responses
are all synchronous. -/
def stepCol (curl : String) : List String → Request → Json × List String :=
  fun names req =>
    match req.method with
    | Method.get => (listingOf (names.map (fun n => Json.str (curl ++ "/" ++ n))), names)
    | Method.post =>
      if req.url = api_url ++ curl then
        match nameOf req.body with
        | some n => (mkSync Json.null, names ++ [n])
        | none => (mkSync Json.null, names)
      else (mkSync Json.null, names)
    | _ => (mkSync Json.null, names)

/-- A faulty hypervisor for one collection: it accepts every request but
silently drops POSTs, so a created resource never becomes visible. -/
def stepColDrop (curl : String) : List String → Request → Json × List String :=
  fun names req =>
    match req.method with
    | Method.get => (listingOf (names.map (fun n => Json.str (curl ++ "/" ++ n))), names)
    | _ => (mkSync Json.null, names)

/-- A hypervisor that answers every request with the same fixed body. -/
def stepConst (j : Json) : Unit → Request → Json × Unit :=
  fun _ _ => (j, ())

/-- A hypervisor for the async protocol: the wait url answers a synchronous
envelope with the given `status_code` value, every other request answers an
async envelope carrying the operation handle `op`. -/
def stepAsync (op : String) (sc : Json) : Unit → Request → Json × Unit :=
  fun _ req =>
    (if req.url = api_url ++ op ++ "/wait" then
       Json.obj [("type", Json.str "sync"), ("metadata", Json.obj [("status_code", sc)])]
     else Json.obj [("type", Json.str "async"), ("operation", Json.str op)], ())

/-- A hypervisor for the container-state protocol: the element detail url
answers a synchronous envelope whose metadata carries the given status
string, the collection url answers the given listing, everything else a
bare synchronous envelope. -/
def stepDetail (name : String) (xs : List Json) (st : String) : Unit → Request → Json × Unit :=
  fun _ req =>
    (if req.url = api_url ++ "/1.0/containers" ++ "/" ++ name then
       mkSync (Json.obj [("status", Json.str st)])
     else if req.url = api_url ++ "/1.0/containers" then
       listingOf xs
     else mkSync Json.null, ())

/-- Which of the four fixed collections a full url addresses. -/
def relOfCollection (u : String) : Option String :=
  if u = api_url ++ "/1.0/storage-pools" then some "/1.0/storage-pools"
  else if u = api_url ++ "/1.0/networks" then some "/1.0/networks"
  else if u = api_url ++ "/1.0/profiles" then some "/1.0/profiles"
  else if u = api_url ++ "/1.0/containers" then some "/1.0/containers"
  else none

/-- A well-behaved hypervisor over all four collections: state is the list
of relative element urls present (every GET lists them all), POST to a
collection url records the posted name under that collection, DELETE to an
element url removes it, responses are all synchronous. -/
def stepStack : List String → Request → Json × List String :=
  fun pres req =>
    match req.method with
    | Method.get => (listingOf (pres.map Json.str), pres)
    | Method.post =>
      match relOfCollection req.url, nameOf req.body with
      | some curl, some n => (mkSync Json.null, pres ++ [curl ++ "/" ++ n])
      | _, _ => (mkSync Json.null, pres)
    | Method.delete => (mkSync Json.null, pres.filter (fun e => decide (¬ (api_url ++ e = req.url))))
    | Method.put => (mkSync Json.null, pres)

/-! ### Lifecycle case lemmas -/

theorem create_of_log_error {H : Type} (step : H → Request → Json × H) (fuel : Nat)
    (r : Resource) (h : H) (e : Err) (hlog : r.log = Except.error e) :
    Resource.create step fuel r h = (Except.error e, h, []) := by
  unfold Resource.create
  rw [bind_apply, liftE_apply, hlog]

theorem create_of_exists_true {H : Type} (step : H → Request → Json × H) (fuel : Nat)
    (r : Resource) (h h1 : H) (t1 : List Request)
    (hlog : r.log = Except.ok ())
    (hex : Resource.exists step fuel r h = (Except.ok true, h1, t1)) :
    Resource.create step fuel r h = (Except.ok (), h1, t1) := by
  unfold Resource.create
  simp [bind_apply, liftE_apply, pure_apply, hlog, hex]

theorem create_of_exists_false {H : Type} (step : H → Request → Json × H) (fuel : Nat)
    (r : Resource) (h h1 h2 h3 : H) (t1 t2 t3 : List Request) (jp : Json) (b : Bool)
    (hlog : r.log = Except.ok ())
    (hex1 : Resource.exists step fuel r h = (Except.ok false, h1, t1))
    (hpost : doRequest step fuel (postRequest r) h1 = (Except.ok jp, h2, t2))
    (hex2 : Resource.exists step fuel r h2 = (Except.ok b, h3, t3)) :
    Resource.create step fuel r h =
      ((if b then Except.ok () else Except.error Err.resourceCreationFailed),
       h3, t1 ++ t2 ++ t3) := by
  unfold Resource.create
  cases b <;>
    simp [bind_apply, liftE_apply, pure_apply, throwM_apply, hlog, hex1, hpost, hex2]

theorem create_of_exists_error {H : Type} (step : H → Request → Json × H) (fuel : Nat)
    (r : Resource) (h h1 : H) (t1 : List Request) (e : Err)
    (hlog : r.log = Except.ok ())
    (hex : Resource.exists step fuel r h = (Except.error e, h1, t1)) :
    Resource.create step fuel r h = (Except.error e, h1, t1) := by
  unfold Resource.create
  simp [bind_apply, liftE_apply, hlog, hex]

theorem delete_of_log_error {H : Type} (step : H → Request → Json × H) (fuel : Nat)
    (r : Resource) (h : H) (e : Err) (hlog : r.log = Except.error e) :
    Resource.delete step fuel r h = (Except.error e, h, []) := by
  unfold Resource.delete
  rw [bind_apply, liftE_apply, hlog]

theorem delete_of_exists_false {H : Type} (step : H → Request → Json × H) (fuel : Nat)
    (r : Resource) (h h1 : H) (t1 : List Request)
    (hlog : r.log = Except.ok ())
    (hex : Resource.exists step fuel r h = (Except.ok false, h1, t1)) :
    Resource.delete step fuel r h = (Except.ok (), h1, t1) := by
  unfold Resource.delete
  simp [bind_apply, liftE_apply, pure_apply, hlog, hex]

theorem delete_of_exists_true {H : Type} (step : H → Request → Json × H) (fuel : Nat)
    (r : Resource) (h h1 h2 h3 : H) (t1 t2 t3 : List Request) (u : String) (jd : Json) (b : Bool)
    (hlog : r.log = Except.ok ())
    (hu : r.get_full_element_url = Except.ok u)
    (hex1 : Resource.exists step fuel r h = (Except.ok true, h1, t1))
    (hdel : doRequest step fuel (Request.mk Method.delete u none) h1 = (Except.ok jd, h2, t2))
    (hex2 : Resource.exists step fuel r h2 = (Except.ok b, h3, t3)) :
    Resource.delete step fuel r h =
      ((if b then Except.error Err.resourceDeletionFailed else Except.ok ()),
       h3, t1 ++ t2 ++ t3) := by
  unfold Resource.delete
  cases b <;>
    simp [bind_apply, liftE_apply, pure_apply, throwM_apply, hlog, hu, hex1, hdel, hex2]

theorem is_running_of_exists_false {H : Type} (step : H → Request → Json × H) (fuel : Nat)
    (c : Resource) (h h1 : H) (t1 : List Request)
    (hex : Resource.exists step fuel c h = (Except.ok false, h1, t1)) :
    Container.is_running step fuel c h = (Except.ok false, h1, t1) := by
  unfold Container.is_running
  simp [bind_apply, pure_apply, hex]

theorem is_running_of_exists_error {H : Type} (step : H → Request → Json × H) (fuel : Nat)
    (c : Resource) (h h1 : H) (t1 : List Request) (e : Err)
    (hex : Resource.exists step fuel c h = (Except.error e, h1, t1)) :
    Container.is_running step fuel c h = (Except.error e, h1, t1) := by
  unfold Container.is_running
  simp [bind_apply, hex]

theorem stop_of_not_running {H : Type} (step : H → Request → Json × H) (fuel : Nat)
    (c : Resource) (h h1 : H) (t1 : List Request)
    (hrun : Container.is_running step fuel c h = (Except.ok false, h1, t1)) :
    Container.stop step fuel c h = (Except.ok (), h1, t1) := by
  unfold Container.stop
  simp [bind_apply, pure_apply, hrun]

theorem start_of_running {H : Type} (step : H → Request → Json × H) (fuel : Nat)
    (c : Resource) (h h1 : H) (t1 : List Request)
    (hrun : Container.is_running step fuel c h = (Except.ok true, h1, t1)) :
    Container.start step fuel c h = (Except.ok (), h1, t1) := by
  unfold Container.start
  simp [bind_apply, pure_apply, hrun]

/-- `_exists` against the fixed-listing hypervisor, with no assumptions on
the resource's configuration. -/
theorem exists_stepListing (xs : List Json) (fuel : Nat) (r : Resource) :
    Resource.exists (stepListing xs) fuel r () =
      (anyElementUrl r xs, (), [listRequest r]) := by
  rw [exists_run, doRequest_sync_step (stepListing xs) fuel (listRequest r) () (Json.arr xs) rfl]
  rfl

/-- When element-url construction raises, the membership test raises on the
first listing element, and succeeds with `false` only on an empty listing. -/
theorem anyElementUrl_url_error (r : Resource)
    (hurl : r.get_element_url = Except.error Err.typeError) :
    ∀ elems : List Json,
      anyElementUrl r elems =
        (match elems with
         | [] => Except.ok false
         | _ :: _ => Except.error Err.typeError) := by
  intro elems
  cases elems with
  | nil => rfl
  | cons a rest =>
    unfold anyElementUrl
    rw [hurl]
    rfl

/-- When element-url construction raises, `_exists` never returns true. -/
theorem existsBody_url_error (r : Resource) (j : Json)
    (hurl : r.get_element_url = Except.error Err.typeError) :
    existsBody r j = Except.ok false ∨ ∃ e, existsBody r j = Except.error e := by
  unfold existsBody
  cases hmd : dictGet j "metadata" with
  | error e => exact Or.inr ⟨e, rfl⟩
  | ok md =>
    rw [exceptOk_bind]
    cases hit : iterElems md with
    | error e => exact Or.inr ⟨e, rfl⟩
    | ok elems =>
      rw [exceptOk_bind]
      rw [anyElementUrl_url_error r hurl elems]
      cases elems with
      | nil => exact Or.inl rfl
      | cons a rest => exact Or.inr ⟨Err.typeError, rfl⟩

theorem exists_url_error_cases {H : Type} (step : H → Request → Json × H) (fuel : Nat)
    (r : Resource) (h : H)
    (hurl : r.get_element_url = Except.error Err.typeError)
    (res : Except Err Bool) (h1 : H) (t : List Request)
    (hex : Resource.exists step fuel r h = (res, h1, t)) :
    res = Except.ok false ∨ ∃ e, res = Except.error e := by
  rw [exists_run] at hex
  rcases hdo : doRequest step fuel (listRequest r) h with ⟨res0, h0, t0⟩
  rw [hdo] at hex
  cases res0 with
  | error e =>
    injection hex with ha hb
    exact Or.inr ⟨e, ha.symm⟩
  | ok j =>
    injection hex with ha hb
    rcases existsBody_url_error r j hurl with hb2 | ⟨e, hb2⟩
    · exact Or.inl (ha.symm.trans hb2)
    · exact Or.inr ⟨e, ha.symm.trans hb2⟩

/-- When element-url construction raises, `start()` always fails, and only
GETs are ever issued (no mutating request). -/
theorem start_url_error {H : Type} (step : H → Request → Json × H) (fuel : Nat)
    (c : Resource) (h : H)
    (hurl : c.get_element_url = Except.error Err.typeError) :
    ∃ (e : Err) (h1 : H) (t : List Request),
      Container.start step fuel c h = (Except.error e, h1, t) ∧
      ∀ q ∈ t, q.method = Method.get := by
  rcases hex : Resource.exists step fuel c h with ⟨res0, h1, t1⟩
  have htr := exists_trace_get step fuel c h res0 h1 t1 hex
  rcases exists_url_error_cases step fuel c h hurl res0 h1 t1 hex with rfl | ⟨e, rfl⟩
  · have hrun := is_running_of_exists_false step fuel c h h1 t1 hex
    refine ⟨Err.typeError, h1, t1, ?_, htr⟩
    unfold Container.start
    simp [bind_apply, liftE_apply, hrun, log_of_url_error c Err.typeError hurl]
  · have hrun := is_running_of_exists_error step fuel c h h1 t1 e hex
    refine ⟨e, h1, t1, ?_, htr⟩
    unfold Container.start
    simp [bind_apply, hrun]

/-! ### Claim C2 -/

/-- C2: for every collection listing response, `exists()` returns true iff
the resource's element path string (collection path + "/" + name) is an
element of the listing's metadata sequence, regardless of the sequence's
order or length; `exists()` issues only a GET on the collection path and
never fetches the element directly. -/
theorem C2_exists_correct (curl name : String) (xs : List Json) (fuel : Nat) :
    ∃ b : Bool,
      Resource.exists (stepListing xs) fuel (Resource.mk curl (specOf name)) () =
        (Except.ok b, (), [Request.mk Method.get (api_url ++ curl) none]) ∧
      (b = true ↔ Json.str (curl ++ "/" ++ name) ∈ xs) := by
  refine ⟨xs.any (fun a => eqStr a (curl ++ "/" ++ name)), ?_, ?_⟩
  · have hstep : ((stepListing xs) () (listRequest (Resource.mk curl (specOf name)))).1 = listingOf xs := rfl
    have hu := get_element_url_of_name curl (specOf name) name (dictGet_specOf name)
    exact exists_listing_step (stepListing xs) fuel _ () xs _ hstep hu
  · constructor
    · intro hb
      rcases List.any_eq_true.mp hb with ⟨a, ha, he⟩
      rcases (eqStr_true_iff a _).mp he with rfl
      exact ha
    · intro hm
      exact List.any_eq_true.mpr ⟨_, hm, (eqStr_true_iff _ _).mpr rfl⟩

/-! ### Claim C1 -/

theorem any_map_str_decide (curl name : String) (names : List String) :
    (names.map (fun n => Json.str (curl ++ "/" ++ n))).any
        (fun a => eqStr a (curl ++ "/" ++ name)) =
      names.any (fun m => decide (curl ++ "/" ++ m = curl ++ "/" ++ name)) := by
  induction names with
  | nil => rfl
  | cons m rest ih =>
    rw [List.map_cons, List.any_cons, List.any_cons, ih]
    rfl

/-- `_exists` against the one-collection hypervisor: the membership test of
the resource's name in the recorded names. -/
theorem exists_stepCol (curl name : String) (cfg : Json) (fuel : Nat)
    (hn : dictGet cfg "name" = Except.ok (Json.str name)) :
    ∀ names : List String,
      Resource.exists (stepCol curl) fuel (Resource.mk curl cfg) names =
        (Except.ok (names.any (fun m => decide (curl ++ "/" ++ m = curl ++ "/" ++ name))),
         names, [listRequest (Resource.mk curl cfg)]) := by
  intro names
  have hu := get_element_url_of_name curl cfg name hn
  have hstep1 : ((stepCol curl) names (listRequest (Resource.mk curl cfg))).1 =
      listingOf (names.map (fun n => Json.str (curl ++ "/" ++ n))) := rfl
  have h := exists_listing_step (stepCol curl) fuel (Resource.mk curl cfg) names _ _ hstep1 hu
  rw [any_map_str_decide curl name names] at h
  exact h

/-- Full run of `create()` against the one-collection hypervisor: no-op when
the name is already listed, otherwise existence GET, one POST of the spec,
and a re-check GET. -/
theorem create_stepCol (curl name : String) (cfg : Json) (names0 : List String) (fuel : Nat)
    (hn : dictGet cfg "name" = Except.ok (Json.str name)) :
    Resource.create (stepCol curl) fuel (Resource.mk curl cfg) names0 =
      (if names0.any (fun m => decide (curl ++ "/" ++ m = curl ++ "/" ++ name)) then
        (Except.ok (), names0, [listRequest (Resource.mk curl cfg)])
       else
        (Except.ok (), names0 ++ [name],
         [listRequest (Resource.mk curl cfg), postRequest (Resource.mk curl cfg),
          listRequest (Resource.mk curl cfg)])) := by
  have hlog := log_of_name curl cfg name hn
  have hex := exists_stepCol curl name cfg fuel hn
  cases hB : names0.any (fun m => decide (curl ++ "/" ++ m = curl ++ "/" ++ name)) with
  | true =>
    have hext := hex names0
    rw [hB] at hext
    have hres := create_of_exists_true (stepCol curl) fuel _ names0 names0 _ hlog hext
    simpa using hres
  | false =>
    have hext := hex names0
    rw [hB] at hext
    have hnn : nameOf (some cfg) = some name := by
      unfold nameOf
      dsimp only
      rw [hn]
    have hst2 : (stepCol curl) names0 (postRequest (Resource.mk curl cfg)) =
        (mkSync Json.null, names0 ++ [name]) := by
      unfold stepCol
      simp [postRequest, Resource.get_full_collection_url, hnn]
    have hpost := doRequest_sync_step (stepCol curl) fuel
      (postRequest (Resource.mk curl cfg)) names0 Json.null
      (by rw [hst2])
    rw [hst2] at hpost
    have hext2 := hex (names0 ++ [name])
    have hB2 : (names0 ++ [name]).any
        (fun m => decide (curl ++ "/" ++ m = curl ++ "/" ++ name)) = true := by
      simp
    rw [hB2] at hext2
    have hres := create_of_exists_false (stepCol curl) fuel (Resource.mk curl cfg)
      names0 names0 (names0 ++ [name]) (names0 ++ [name]) _ _ _ (mkSync Json.null) true
      hlog hext hpost hext2
    simpa using hres

/-- Full run of `create()` against the dropping hypervisor: the POST is
accepted but has no effect, so the re-check fails the call. -/
theorem create_stepColDrop (curl name : String) (cfg : Json) (names0 : List String) (fuel : Nat)
    (hn : dictGet cfg "name" = Except.ok (Json.str name))
    (hB : names0.any (fun m => decide (curl ++ "/" ++ m = curl ++ "/" ++ name)) = false) :
    Resource.create (stepColDrop curl) fuel (Resource.mk curl cfg) names0 =
      (Except.error Err.resourceCreationFailed, names0,
       [listRequest (Resource.mk curl cfg), postRequest (Resource.mk curl cfg),
        listRequest (Resource.mk curl cfg)]) := by
  have hlog := log_of_name curl cfg name hn
  have hu := get_element_url_of_name curl cfg name hn
  have hexd : ∀ names : List String,
      Resource.exists (stepColDrop curl) fuel (Resource.mk curl cfg) names =
        (Except.ok (names.any (fun m => decide (curl ++ "/" ++ m = curl ++ "/" ++ name))),
         names, [listRequest (Resource.mk curl cfg)]) := by
    intro names
    have hstep1 : ((stepColDrop curl) names (listRequest (Resource.mk curl cfg))).1 =
        listingOf (names.map (fun n => Json.str (curl ++ "/" ++ n))) := rfl
    have h := exists_listing_step (stepColDrop curl) fuel (Resource.mk curl cfg) names _ _ hstep1 hu
    rw [any_map_str_decide curl name names] at h
    exact h
  have hext := hexd names0
  rw [hB] at hext
  have hpost := doRequest_sync_step (stepColDrop curl) fuel
    (postRequest (Resource.mk curl cfg)) names0 Json.null rfl
  have hext2 := hexd names0
  rw [hB] at hext2
  have hres := create_of_exists_false (stepColDrop curl) fuel (Resource.mk curl cfg)
    names0 names0 names0 names0 _ _ _ (mkSync Json.null) false
    hlog hext hpost hext2
  simpa using hres

/-- C1: for every resource spec, `create()` first performs the existence
check; if it returns false, it issues exactly one POST of the spec to the
collection path and then re-checks existence, failing with
`ResourceCreationFailed` if the re-check is still false; if the initial
check returns true, it issues no mutating request and succeeds, and a
second `create()` after a successful one issues zero POSTs. -/
theorem C1_create_idempotent (curl name : String) (cfg : Json) (names0 : List String) (fuel : Nat)
    (hn : dictGet cfg "name" = Except.ok (Json.str name)) :
    ((∀ m ∈ names0, ¬ (curl ++ "/" ++ m = curl ++ "/" ++ name)) →
      Resource.create (stepCol curl) fuel (Resource.mk curl cfg) names0 =
        (Except.ok (), names0 ++ [name],
         [listRequest (Resource.mk curl cfg), postRequest (Resource.mk curl cfg),
          listRequest (Resource.mk curl cfg)])) ∧
    ((∃ m ∈ names0, curl ++ "/" ++ m = curl ++ "/" ++ name) →
      Resource.create (stepCol curl) fuel (Resource.mk curl cfg) names0 =
        (Except.ok (), names0, [listRequest (Resource.mk curl cfg)])) ∧
    (∀ (names1 : List String) (t1 : List Request),
      Resource.create (stepCol curl) fuel (Resource.mk curl cfg) names0 =
        (Except.ok (), names1, t1) →
      Resource.create (stepCol curl) fuel (Resource.mk curl cfg) names1 =
        (Except.ok (), names1, [listRequest (Resource.mk curl cfg)])) ∧
    ((∀ m ∈ names0, ¬ (curl ++ "/" ++ m = curl ++ "/" ++ name)) →
      Resource.create (stepColDrop curl) fuel (Resource.mk curl cfg) names0 =
        (Except.error Err.resourceCreationFailed, names0,
         [listRequest (Resource.mk curl cfg), postRequest (Resource.mk curl cfg),
          listRequest (Resource.mk curl cfg)])) := by
  have hrun := create_stepCol curl name cfg names0 fuel hn
  refine ⟨?_, ?_, ?_, ?_⟩
  · intro habs
    have hB : names0.any (fun m => decide (curl ++ "/" ++ m = curl ++ "/" ++ name)) = false := by
      simp only [List.any_eq_false, decide_eq_true_eq]
      exact habs
    rw [hrun, if_neg (by simp [hB])]
  · intro hpres
    have hB : names0.any (fun m => decide (curl ++ "/" ++ m = curl ++ "/" ++ name)) = true := by
      rcases hpres with ⟨m, hm, he⟩
      exact List.any_eq_true.mpr ⟨m, hm, decide_eq_true he⟩
    rw [hrun, if_pos hB]
  · intro names1 t1 h1
    cases hB : names0.any (fun m => decide (curl ++ "/" ++ m = curl ++ "/" ++ name)) with
    | true =>
      rw [hrun, if_pos hB] at h1
      injection h1 with ha hb
      injection hb with hb1 hb2
      subst hb1
      rw [create_stepCol curl name cfg names0 fuel hn, if_pos hB]
    | false =>
      rw [hrun, if_neg (by simp [hB])] at h1
      injection h1 with ha hb
      injection hb with hb1 hb2
      subst hb1
      rw [create_stepCol curl name cfg (names0 ++ [name]) fuel hn, if_pos (by simp)]
  · intro habs
    have hB : names0.any (fun m => decide (curl ++ "/" ++ m = curl ++ "/" ++ name)) = false := by
      simp only [List.any_eq_false, decide_eq_true_eq]
      exact habs
    exact create_stepColDrop curl name cfg names0 fuel hn hB

/-- Witness for C1: creating `web1` in an empty containers collection. -/
theorem C1_create_idempotent_witness :
    Resource.create (stepCol "/1.0/containers") 1
        (Resource.mk "/1.0/containers" (specOf "web1")) [] =
      (Except.ok (), ["web1"],
       [listRequest (Resource.mk "/1.0/containers" (specOf "web1")),
        postRequest (Resource.mk "/1.0/containers" (specOf "web1")),
        listRequest (Resource.mk "/1.0/containers" (specOf "web1"))]) :=
  (C1_create_idempotent "/1.0/containers" "web1" (specOf "web1") [] 1 rfl).1 (by simp)

/-! ### Claim C7 -/

/-- Counterexample to C7 as stated: deleting an absent resource does issue a
request — the existence-check GET on the collection — so the trace is not
empty. -/
theorem C7_delete_absent_counterexample :
    Resource.delete (stepCol "/1.0/containers") 1
        (Resource.mk "/1.0/containers" (specOf "web1")) [] =
      (Except.ok (), [],
       [listRequest (Resource.mk "/1.0/containers" (specOf "web1"))]) ∧
    [listRequest (Resource.mk "/1.0/containers" (specOf "web1"))] ≠ ([] : List Request) := by
  constructor
  · have hlog := log_of_name "/1.0/containers" (specOf "web1") "web1" rfl
    have hext := exists_stepCol "/1.0/containers" "web1" (specOf "web1") 1 rfl []
    exact delete_of_exists_false (stepCol "/1.0/containers") 1 _ [] [] _ hlog (by simpa using hext)
  · simp

/-- C7 (amended): deleting an absent resource succeeds and issues no
mutating request — only the read-only existence-check GET (and any
hook-driven GETs) are issued. -/
theorem C7_delete_absent_no_mutation (H : Type) (step : H → Request → Json × H) (fuel : Nat)
    (r : Resource) (h h1 : H) (t : List Request) (u : String)
    (hu : r.get_element_url = Except.ok u)
    (hex : Resource.exists step fuel r h = (Except.ok false, h1, t)) :
    Resource.delete step fuel r h = (Except.ok (), h1, t) ∧
    ∀ q ∈ t, q.method = Method.get := by
  have hlog : r.log = Except.ok () := by
    unfold Resource.log
    rw [hu]
    rfl
  exact ⟨delete_of_exists_false step fuel r h h1 t hlog hex,
         exists_trace_get step fuel r h _ h1 t hex⟩

/-- Witness for C7 (amended) at a concrete absent resource. -/
theorem C7_delete_absent_no_mutation_witness :
    Resource.delete (stepListing []) 1 (Resource.mk "/1.0/containers" (specOf "web1")) () =
      (Except.ok (), (), [listRequest (Resource.mk "/1.0/containers" (specOf "web1"))]) ∧
    ∀ q ∈ [listRequest (Resource.mk "/1.0/containers" (specOf "web1"))],
      q.method = Method.get :=
  C7_delete_absent_no_mutation Unit (stepListing []) 1
    (Resource.mk "/1.0/containers" (specOf "web1")) () ()
    [listRequest (Resource.mk "/1.0/containers" (specOf "web1"))]
    ("/1.0/containers" ++ "/" ++ "web1") rfl
    (by simpa using exists_stepListing [] 1 (Resource.mk "/1.0/containers" (specOf "web1")))

/-! ### Claims C5 and C9 -/

/-- Full run of `_is_running` against the detail-model hypervisor. -/
theorem is_running_detail_run (name st : String) (xs : List Json) (fuel : Nat) :
    Container.is_running (stepDetail name xs st) fuel
        (Resource.mk "/1.0/containers" (specOf name)) () =
      (Except.ok ((xs.any (fun a => eqStr a ("/1.0/containers" ++ "/" ++ name))) &&
          decide (st = "Running")), (),
        if xs.any (fun a => eqStr a ("/1.0/containers" ++ "/" ++ name)) then
          [Request.mk Method.get (api_url ++ "/1.0/containers") none,
           Request.mk Method.get (api_url ++ "/1.0/containers" ++ "/" ++ name) none]
        else [Request.mk Method.get (api_url ++ "/1.0/containers") none]) := by
  have hne : ¬ (api_url ++ "/1.0/containers" = api_url ++ "/1.0/containers" ++ "/" ++ name) :=
    string_ne_slash_extend (api_url ++ "/1.0/containers") name
  have hu := get_element_url_of_name "/1.0/containers" (specOf name) name (dictGet_specOf name)
  have hfu := get_full_element_url_of_name "/1.0/containers" (specOf name) name (dictGet_specOf name)
  have hstep : ((stepDetail name xs st) ()
      (listRequest (Resource.mk "/1.0/containers" (specOf name)))).1 = listingOf xs := by
    simp only [stepDetail, listRequest, Resource.get_full_collection_url]
    rw [if_neg hne]
    simp
  have hex := exists_listing_step (stepDetail name xs st) fuel
    (Resource.mk "/1.0/containers" (specOf name)) () xs _ hstep hu
  have hstep2 : ((stepDetail name xs st) ()
      (Request.mk Method.get (api_url ++ "/1.0/containers" ++ "/" ++ name) none)).1 =
      mkSync (Json.obj [("status", Json.str st)]) := by
    simp only [stepDetail]
    simp
  have hdet := doRequest_sync_step (stepDetail name xs st) fuel
    (Request.mk Method.get (api_url ++ "/1.0/containers" ++ "/" ++ name) none) () _ hstep2
  have hrb : runningBody (mkSync (Json.obj [("status", Json.str st)])) =
      Except.ok (decide (st = "Running")) := rfl
  unfold Container.is_running
  rw [bind_apply, hex]
  cases hb : xs.any (fun a => eqStr a ("/1.0/containers" ++ "/" ++ name)) with
  | false =>
    simp [hb, pure_apply, listRequest, Resource.get_full_collection_url]
  | true =>
    simp [hb, bind_apply, liftE_apply, pure_apply, hfu, hdet, hrb,
      listRequest, Resource.get_full_collection_url]

/-- C5: for every container, `isRunning()` returns true iff `exists()`
returns true and the element detail fetch reports a status field exactly
equal to "Running"; in particular it is false for a container that does not
exist and false for an existing container whose status is anything other
than "Running". -/
theorem C5_is_running_iff (name st : String) (xs : List Json) (fuel : Nat) :
    ∃ b : Bool,
      Container.is_running (stepDetail name xs st) fuel
          (Resource.mk "/1.0/containers" (specOf name)) () =
        (Except.ok (b && decide (st = "Running")), (),
          if b then
            [Request.mk Method.get (api_url ++ "/1.0/containers") none,
             Request.mk Method.get (api_url ++ "/1.0/containers" ++ "/" ++ name) none]
          else [Request.mk Method.get (api_url ++ "/1.0/containers") none]) ∧
      (b = true ↔ Json.str ("/1.0/containers" ++ "/" ++ name) ∈ xs) := by
  refine ⟨xs.any (fun a => eqStr a ("/1.0/containers" ++ "/" ++ name)),
    is_running_detail_run name st xs fuel, ?_⟩
  constructor
  · intro hb
    rcases List.any_eq_true.mp hb with ⟨a, ha, he⟩
    rcases (eqStr_true_iff a _).mp he with rfl
    exact ha
  · intro hm
    exact List.any_eq_true.mpr ⟨_, hm, (eqStr_true_iff _ _).mpr rfl⟩

/-- C9: when the existence check of a container returns false,
`isRunning()` returns false without issuing any further request: whatever
requests the existence check issued are all that is issued, and on a
well-formed hypervisor that is exactly the one collection listing GET —
no request ever goes to the detail url of a non-existent container. -/
theorem C9_no_detail_fetch_when_absent :
    (∀ (H : Type) (step : H → Request → Json × H) (fuel : Nat) (c : Resource)
        (h h1 : H) (t : List Request),
      Resource.exists step fuel c h = (Except.ok false, h1, t) →
      Container.is_running step fuel c h = (Except.ok false, h1, t)) ∧
    (∀ (name st : String) (fuel : Nat),
      Container.is_running (stepDetail name [] st) fuel
          (Resource.mk "/1.0/containers" (specOf name)) () =
        (Except.ok false, (), [Request.mk Method.get (api_url ++ "/1.0/containers") none])) := by
  constructor
  · intro H step fuel c h h1 t hex
    unfold Container.is_running
    rw [bind_apply, hex]
    simp [pure_apply]
  · intro name st fuel
    have hrun := is_running_detail_run name st [] fuel
    simpa using hrun

/-- Witness for C9 at a concrete input. -/
theorem C9_no_detail_fetch_when_absent_witness :
    Container.is_running (stepDetail "web1" [] "Running") 1
        (Resource.mk "/1.0/containers" (specOf "web1")) () =
      (Except.ok false, (), [Request.mk Method.get (api_url ++ "/1.0/containers") none]) :=
  C9_no_detail_fetch_when_absent.2 "web1" "Running" 1

/-! ### Claim C3 -/

/-- C3: for every hypervisor response of type "async" carrying an operation
handle, the client issues a GET to handle + "/wait" before the triggering
call returns (the wait GET is in the trace in both outcomes), and the
triggering call fails if and only if the wait response's metadata
status_code is not 200, failing with `OperationFailed` carrying the full
wait response. -/
theorem C3_async_wait (req : Request) (op : String) (sc : Json) (fuel : Nat)
    (hreq : ¬ (req.url = api_url ++ op ++ "/wait")) :
    doRequest (stepAsync op sc) (fuel + 1) req () =
      ((if eqInt sc 200 then
          Except.ok (Json.obj [("type", Json.str "async"), ("operation", Json.str op)])
        else
          Except.error (Err.operationFailed
            (Json.obj [("type", Json.str "sync"),
                       ("metadata", Json.obj [("status_code", sc)])]))), (),
       [req, waitRequest op]) := by
  have hstep1 : ((stepAsync op sc) () req).1 =
      Json.obj [("type", Json.str "async"), ("operation", Json.str op)] := by
    simp only [stepAsync]
    rw [if_neg hreq]
  have hstep2 : ((stepAsync op sc) () (waitRequest op)).1 =
      mkSync (Json.obj [("status_code", sc)]) := by
    simp only [stepAsync, waitRequest]
    simp [mkSync]
  have hwait := doRequest_sync_step (stepAsync op sc) fuel (waitRequest op) () _ hstep2
  have hout : hookOutcome (Json.obj [("type", Json.str "async"), ("operation", Json.str op)]) =
      HookOut.async op := rfl
  have hwc : waitCheck (Json.obj [("type", Json.str "async"), ("operation", Json.str op)])
      (mkSync (Json.obj [("status_code", sc)])) =
      (if eqInt sc 200 then
        Except.ok (Json.obj [("type", Json.str "async"), ("operation", Json.str op)])
       else Except.error (Err.operationFailed (mkSync (Json.obj [("status_code", sc)])))) := rfl
  unfold doRequest
  rw [hstep1, hout]
  dsimp only
  rw [hwait]
  dsimp only
  rw [hwc]
  cases hsc : eqInt sc 200 <;> simp [hsc, mkSync]

/-- Witness for C3: a PUT triggering an async operation whose wait reports
status 200 succeeds, with the wait GET issued. -/
theorem C3_async_wait_witness :
    doRequest (stepAsync "/1.0/operations/X" (Json.num 200)) 2
        (Request.mk Method.put "u" none) () =
      (Except.ok (Json.obj [("type", Json.str "async"),
                            ("operation", Json.str "/1.0/operations/X")]), (),
       [Request.mk Method.put "u" none, waitRequest "/1.0/operations/X"]) := by
  have h := C3_async_wait (Request.mk Method.put "u" none) "/1.0/operations/X"
    (Json.num 200) 1 (by decide)
  simpa using h

/-! ### Claim C6 -/

/-- C6: for every hypervisor response whose decoded type field equals
"error", the hook fails with `HypervisorError` carrying the full decoded
body; the failure propagates immediately (the trace holds the one
triggering request — no retry), and an in-progress lifecycle operation such
as `create()` aborts with it. -/
theorem C6_error_response (j : Json)
    (hty : dictGet j "type" = Except.ok (Json.str "error")) :
    (∀ (req : Request) (fuel : Nat),
      doRequest (stepConst j) fuel req () = (Except.error (Err.hypervisorError j), (), [req])) ∧
    (∀ (fuel : Nat) (curl name : String),
      Resource.create (stepConst j) fuel (Resource.mk curl (specOf name)) () =
        (Except.error (Err.hypervisorError j), (),
         [Request.mk Method.get (api_url ++ curl) none])) := by
  have hout : hookOutcome j = HookOut.err (Err.hypervisorError j) := by
    unfold hookOutcome
    rw [hty]
    rfl
  have hdo : ∀ (req : Request) (fuel : Nat),
      doRequest (stepConst j) fuel req () = (Except.error (Err.hypervisorError j), (), [req]) := by
    intro req fuel
    have hstep : ((stepConst j) () req).1 = j := rfl
    cases fuel <;> (unfold doRequest; rw [hstep, hout])
  refine ⟨hdo, ?_⟩
  intro fuel curl name
  have hlog := log_of_name curl (specOf name) name (dictGet_specOf name)
  have hex : Resource.exists (stepConst j) fuel (Resource.mk curl (specOf name)) () =
      (Except.error (Err.hypervisorError j), (),
       [listRequest (Resource.mk curl (specOf name))]) := by
    rw [exists_run, hdo (listRequest (Resource.mk curl (specOf name))) fuel]
  unfold Resource.create
  simp [bind_apply, liftE_apply, hlog, hex, listRequest, Resource.get_full_collection_url]

/-- Witness for C6 at a concrete error body. -/
theorem C6_error_response_witness :
    Resource.create (stepConst (Json.obj [("type", Json.str "error")])) 1
        (Resource.mk "/1.0/containers" (specOf "web1")) () =
      (Except.error (Err.hypervisorError (Json.obj [("type", Json.str "error")])), (),
       [Request.mk Method.get (api_url ++ "/1.0/containers") none]) :=
  (C6_error_response (Json.obj [("type", Json.str "error")]) rfl).2 1 "/1.0/containers" "web1"

/-! ### Claim C10 -/

/-- Counterexample to C10 as stated: for a spec lacking "name", `exists()`
against an empty collection listing succeeds (returning false) instead of
failing — the membership filter never evaluates the element url on an empty
listing. -/
theorem C10_nameless_exists_counterexample :
    Resource.exists (stepListing []) 1 (Resource.mk "/1.0/containers" (Json.obj [])) () =
      (Except.ok false, (), [listRequest (Resource.mk "/1.0/containers" (Json.obj []))]) ∧
    (∀ e : Err, (Except.ok false : Except Err Bool) ≠ Except.error e) := by
  constructor
  · simpa using exists_stepListing [] 1 (Resource.mk "/1.0/containers" (Json.obj []))
  · intro e h
    cases h

/-- C10 (amended): a spec with "name" bound to a string makes element-url
construction total; for a spec whose element-url construction raises
`TypeError` (no "name", or a non-string name): `create()` and `delete()`
fail during url construction before any request; `start()` always fails
with only GETs issued (no mutating request); `exists()` fails exactly when
the collection listing is non-empty, returning false on an empty listing;
and `stop()` against an empty listing succeeds as a no-op. -/
theorem C10_name_precondition :
    (∀ (curl name : String) (cfg : Json),
      dictGet cfg "name" = Except.ok (Json.str name) →
      (Resource.mk curl cfg).get_element_url = Except.ok (curl ++ "/" ++ name) ∧
      (Resource.mk curl cfg).get_full_element_url =
        Except.ok (api_url ++ curl ++ "/" ++ name)) ∧
    (∀ (H : Type) (step : H → Request → Json × H) (fuel : Nat) (r : Resource) (h : H),
      r.get_element_url = Except.error Err.typeError →
      Resource.create step fuel r h = (Except.error Err.typeError, h, []) ∧
      Resource.delete step fuel r h = (Except.error Err.typeError, h, []) ∧
      (∃ (e : Err) (h1 : H) (t : List Request),
        Container.start step fuel r h = (Except.error e, h1, t) ∧
        ∀ q ∈ t, q.method = Method.get)) ∧
    (∀ (r : Resource) (fuel : Nat) (xs : List Json),
      r.get_element_url = Except.error Err.typeError →
      Resource.exists (stepListing xs) fuel r () =
        ((match xs with
          | [] => Except.ok false
          | _ :: _ => Except.error Err.typeError), (), [listRequest r]) ∧
      Container.stop (stepListing []) fuel r () = (Except.ok (), (), [listRequest r])) := by
  refine ⟨?_, ?_, ?_⟩
  · intro curl name cfg hn
    exact ⟨get_element_url_of_name curl cfg name hn,
           get_full_element_url_of_name curl cfg name hn⟩
  · intro H step fuel r h hurl
    have hlog := log_of_url_error r Err.typeError hurl
    exact ⟨create_of_log_error step fuel r h Err.typeError hlog,
           delete_of_log_error step fuel r h Err.typeError hlog,
           start_url_error step fuel r h hurl⟩
  · intro r fuel xs hurl
    constructor
    · rw [exists_stepListing, anyElementUrl_url_error r hurl xs]
    · have hex0 : Resource.exists (stepListing []) fuel r () =
          (Except.ok false, (), [listRequest r]) := by
        simpa using exists_stepListing [] fuel r
      exact stop_of_not_running (stepListing []) fuel r () () [listRequest r]
        (is_running_of_exists_false (stepListing []) fuel r () () [listRequest r] hex0)

/-- Witness for C10: url construction is total on a named spec. -/
theorem C10_name_precondition_witness :
    (Resource.mk "/1.0/containers" (specOf "web1")).get_element_url =
      Except.ok ("/1.0/containers" ++ "/" ++ "web1") ∧
    (Resource.mk "/1.0/containers" (specOf "web1")).get_full_element_url =
      Except.ok (api_url ++ "/1.0/containers" ++ "/" ++ "web1") :=
  C10_name_precondition.1 "/1.0/containers" "web1" (specOf "web1") rfl

/-! ### Claim C4 -/

/-- The element urls declared by a list of names under one collection. -/
def urlsOf (curl : String) (names : List String) : List String :=
  names.map (fun n => curl ++ "/" ++ n)

/-- The collection-listing GET issued for collection `curl`. -/
def listReq (curl : String) : Request :=
  Request.mk Method.get (api_url ++ curl) none

/-- The requests issued by creating the named specs, in declaration order:
existence GET, POST of the spec, re-check GET, per spec. -/
def createReqs (curl : String) : List String → List Request
  | [] => []
  | n :: rest =>
    [listReq curl, Request.mk Method.post (api_url ++ curl) (some (specOf n)), listReq curl] ++
    createReqs curl rest

/-- The requests issued by deleting the named specs, in declaration order:
existence GET, DELETE of the element url, re-check GET, per spec. -/
def deleteReqs (curl : String) : List String → List Request
  | [] => []
  | n :: rest =>
    [listReq curl, Request.mk Method.delete (api_url ++ curl ++ "/" ++ n) none, listReq curl] ++
    deleteReqs curl rest

theorem any_map_str (u : String) (l : List String) :
    (l.map Json.str).any (fun a => eqStr a u) = l.any (fun e => decide (e = u)) := by
  induction l with
  | nil => rfl
  | cons m rest ih =>
    rw [List.map_cons, List.any_cons, List.any_cons, ih]
    rfl

/-- `_exists` against the four-collection hypervisor: the membership test of
the element url among the present urls. -/
theorem exists_stepStack (curl n : String) (fuel : Nat) (pres : List String) :
    Resource.exists stepStack fuel (Resource.mk curl (specOf n)) pres =
      (Except.ok (pres.any (fun e => decide (e = curl ++ "/" ++ n))), pres,
       [listRequest (Resource.mk curl (specOf n))]) := by
  have hu := get_element_url_of_name curl (specOf n) n (dictGet_specOf n)
  have hstep1 : (stepStack pres (listRequest (Resource.mk curl (specOf n)))).1 =
      listingOf (pres.map Json.str) := rfl
  have h := exists_listing_step stepStack fuel (Resource.mk curl (specOf n)) pres _ _ hstep1 hu
  rw [any_map_str (curl ++ "/" ++ n) pres] at h
  exact h

/-- Creating one fresh named resource against the four-collection
hypervisor: GET, POST, re-check GET, and the element url is recorded. -/
theorem create_stepStack_one (curl n : String) (pres : List String) (fuel : Nat)
    (hrel : relOfCollection (api_url ++ curl) = some curl)
    (habs : ∀ e ∈ pres, ¬ (e = curl ++ "/" ++ n)) :
    Resource.create stepStack fuel (Resource.mk curl (specOf n)) pres =
      (Except.ok (), pres ++ [curl ++ "/" ++ n],
       [listRequest (Resource.mk curl (specOf n)),
        postRequest (Resource.mk curl (specOf n)),
        listRequest (Resource.mk curl (specOf n))]) := by
  have hlog := log_of_name curl (specOf n) n (dictGet_specOf n)
  have hext := exists_stepStack curl n fuel pres
  have hB : pres.any (fun e => decide (e = curl ++ "/" ++ n)) = false := by
    simp only [List.any_eq_false, decide_eq_true_eq]
    exact habs
  rw [hB] at hext
  have hnn : nameOf (some (specOf n)) = some n := rfl
  have hst2 : stepStack pres (postRequest (Resource.mk curl (specOf n))) =
      (mkSync Json.null, pres ++ [curl ++ "/" ++ n]) := by
    unfold stepStack
    simp [postRequest, Resource.get_full_collection_url, hrel, hnn]
  have hpost := doRequest_sync_step stepStack fuel
    (postRequest (Resource.mk curl (specOf n))) pres Json.null (by rw [hst2])
  rw [hst2] at hpost
  have hext2 := exists_stepStack curl n fuel (pres ++ [curl ++ "/" ++ n])
  have hB2 : (pres ++ [curl ++ "/" ++ n]).any
      (fun e => decide (e = curl ++ "/" ++ n)) = true := by
    simp
  rw [hB2] at hext2
  have hres := create_of_exists_false stepStack fuel (Resource.mk curl (specOf n))
    pres pres (pres ++ [curl ++ "/" ++ n]) (pres ++ [curl ++ "/" ++ n]) _ _ _
    (mkSync Json.null) true hlog hext hpost hext2
  simpa using hres

/-- Deleting the named resource at the head of the present urls against the
four-collection hypervisor: GET, DELETE, re-check GET, and the element url
is removed. -/
theorem delete_stepStack_one (curl n : String) (rest : List String) (fuel : Nat)
    (hnin : ¬ (curl ++ "/" ++ n) ∈ rest) :
    Resource.delete stepStack fuel (Resource.mk curl (specOf n))
        ((curl ++ "/" ++ n) :: rest) =
      (Except.ok (), rest,
       [listRequest (Resource.mk curl (specOf n)),
        Request.mk Method.delete (api_url ++ curl ++ "/" ++ n) none,
        listRequest (Resource.mk curl (specOf n))]) := by
  have hlog := log_of_name curl (specOf n) n (dictGet_specOf n)
  have hfu := get_full_element_url_of_name curl (specOf n) n (dictGet_specOf n)
  have hext := exists_stepStack curl n fuel ((curl ++ "/" ++ n) :: rest)
  have hB : ((curl ++ "/" ++ n) :: rest).any
      (fun e => decide (e = curl ++ "/" ++ n)) = true := by
    simp
  rw [hB] at hext
  have heq : api_url ++ (curl ++ "/" ++ n) = api_url ++ curl ++ "/" ++ n := by
    simp [String.append_assoc]
  have hfil : ((curl ++ "/" ++ n) :: rest).filter
      (fun e => decide (¬ (api_url ++ e = api_url ++ curl ++ "/" ++ n))) = rest := by
    rw [List.filter_cons]
    have hhead : (decide (¬ (api_url ++ (curl ++ "/" ++ n) = api_url ++ curl ++ "/" ++ n))) = false := by
      simp [heq]
    rw [hhead]
    simp only [Bool.false_eq_true, if_false]
    apply List.filter_eq_self.mpr
    intro e he
    simp only [decide_eq_true_eq]
    intro hcontra
    rw [← heq] at hcontra
    exact hnin (string_append_left_cancel hcontra ▸ he)
  have hst2 : stepStack ((curl ++ "/" ++ n) :: rest)
      (Request.mk Method.delete (api_url ++ curl ++ "/" ++ n) none) =
      (mkSync Json.null, rest) := by
    unfold stepStack
    simpa using hfil
  have hdel := doRequest_sync_step stepStack fuel
    (Request.mk Method.delete (api_url ++ curl ++ "/" ++ n) none)
    ((curl ++ "/" ++ n) :: rest) Json.null (by rw [hst2])
  rw [hst2] at hdel
  have hext2 := exists_stepStack curl n fuel rest
  have hB2 : rest.any (fun e => decide (e = curl ++ "/" ++ n)) = false := by
    simp only [List.any_eq_false, decide_eq_true_eq]
    intro e he hcontra
    exact hnin (hcontra ▸ he)
  rw [hB2] at hext2
  have hres := delete_of_exists_true stepStack fuel (Resource.mk curl (specOf n))
    ((curl ++ "/" ++ n) :: rest) ((curl ++ "/" ++ n) :: rest) rest rest _ _ _
    (api_url ++ curl ++ "/" ++ n) (mkSync Json.null) false
    hlog hfu hext hdel hext2
  simpa using hres

/-- Creating a whole collection of fresh, distinct names in declaration
order against the four-collection hypervisor. -/
theorem forEach_create_stepStack (curl : String) (names : List String)
    (pres : List String) (fuel : Nat)
    (hrel : relOfCollection (api_url ++ curl) = some curl)
    (hfresh : ∀ n ∈ names, ∀ e ∈ pres, ¬ (e = curl ++ "/" ++ n))
    (hnodup : (urlsOf curl names).Nodup) :
    forEach (names.map specOf)
        (fun item => Resource.create stepStack fuel (Resource.mk curl item)) pres =
      (Except.ok (), pres ++ urlsOf curl names, createReqs curl names) := by
  induction names generalizing pres with
  | nil => simp [forEach, urlsOf, createReqs, pure_apply]
  | cons n rest ih =>
    have hone := create_stepStack_one curl n pres fuel hrel
      (fun e he => hfresh n (by simp) e he)
    have hfresh2 : ∀ m ∈ rest, ∀ e ∈ pres ++ [curl ++ "/" ++ n], ¬ (e = curl ++ "/" ++ m) := by
      intro m hm e he
      rcases List.mem_append.mp he with he2 | he2
      · exact hfresh m (by simp [hm]) e he2
      · rcases List.mem_singleton.mp he2 with rfl
        intro hcontra
        have hn : (curl ++ "/" ++ m) ∈ urlsOf curl rest :=
          List.mem_map.mpr ⟨m, hm, rfl⟩
        rw [← hcontra] at hn
        have hnodup' : ((curl ++ "/" ++ n) :: urlsOf curl rest).Nodup := hnodup
        exact (List.nodup_cons.mp hnodup').1 hn
    have hnodup2 : (urlsOf curl rest).Nodup := by
      have hnodup' : ((curl ++ "/" ++ n) :: urlsOf curl rest).Nodup := hnodup
      exact (List.nodup_cons.mp hnodup').2
    have htail := ih (pres ++ [curl ++ "/" ++ n]) hfresh2 hnodup2
    show (Resource.create stepStack fuel (Resource.mk curl (specOf n)) >>= fun _ =>
      forEach (rest.map specOf)
        (fun item => Resource.create stepStack fuel (Resource.mk curl item))) pres = _
    rw [bind_apply, hone]
    dsimp only
    rw [htail]
    simp [urlsOf, createReqs, listReq, listRequest, postRequest,
      Resource.get_full_collection_url, List.append_assoc]

/-- Deleting a whole collection of distinct names in declaration order
against the four-collection hypervisor, when their urls sit in front of the
remaining state. -/
theorem forEach_delete_stepStack (curl : String) (names : List String)
    (rest : List String) (fuel : Nat)
    (hnodup : (urlsOf curl names ++ rest).Nodup) :
    forEach (names.map specOf)
        (fun item => Resource.delete stepStack fuel (Resource.mk curl item))
        (urlsOf curl names ++ rest) =
      (Except.ok (), rest, deleteReqs curl names) := by
  induction names generalizing rest with
  | nil => simp [forEach, urlsOf, deleteReqs, pure_apply]
  | cons n tail ih =>
    have hnodup2 : ((curl ++ "/" ++ n) :: (urlsOf curl tail ++ rest)).Nodup := hnodup
    have hone := delete_stepStack_one curl n (urlsOf curl tail ++ rest) fuel
      (List.nodup_cons.mp hnodup2).1
    have htail := ih rest (List.nodup_cons.mp hnodup2).2
    show (Resource.delete stepStack fuel (Resource.mk curl (specOf n)) >>= fun _ =>
      forEach (tail.map specOf)
        (fun item => Resource.delete stepStack fuel (Resource.mk curl item)))
        (urlsOf curl (n :: tail) ++ rest) = _
    have hstate : urlsOf curl (n :: tail) ++ rest =
        (curl ++ "/" ++ n) :: (urlsOf curl tail ++ rest) := by
      simp [urlsOf]
    rw [hstate, bind_apply, hone]
    dsimp only
    rw [htail]
    simp [deleteReqs, listReq, listRequest, Resource.get_full_collection_url]

/-- A stack configuration declaring the four collections by name lists. -/
def configOf (ps ns prs cs : List String) : Json :=
  Json.obj [("storage_pools", Json.arr (ps.map specOf)),
            ("networks", Json.arr (ns.map specOf)),
            ("profiles", Json.arr (prs.map specOf)),
            ("containers", Json.arr (cs.map specOf))]

theorem liftE_ok_bind {H α β : Type} (a : α) (f : α → M H β) :
    (liftE (Except.ok a) >>= f) = f a := by
  funext h
  rw [bind_apply, liftE_apply]
  dsimp only
  rcases hf : f a h with ⟨res, h2, t2⟩
  simp

theorem nodup_append_parts {α : Type} {l1 l2 : List α} (h : (l1 ++ l2).Nodup) :
    l1.Nodup ∧ l2.Nodup ∧ ∀ a ∈ l1, a ∉ l2 := by
  rcases List.nodup_append.mp h with ⟨h1, h2, h3⟩
  exact ⟨h1, h2, fun a ha hb => h3 ha hb⟩

/-- C4: with all four collections populated, `create` processes collections
in the order storage_pools, networks, profiles, containers, and `delete` in
the order containers, profiles, networks, storage_pools, with specs within
each collection processed in declaration order (not reversed): the full
request traces are the concatenations of the per-collection traces in those
orders. -/
theorem C4_ordering (ps ns prs cs : List String) (fuel : Nat)
    (hcreate : (urlsOf "/1.0/storage-pools" ps ++ urlsOf "/1.0/networks" ns ++
      urlsOf "/1.0/profiles" prs ++ urlsOf "/1.0/containers" cs).Nodup)
    (hdelete : (urlsOf "/1.0/containers" cs ++ urlsOf "/1.0/profiles" prs ++
      urlsOf "/1.0/networks" ns ++ urlsOf "/1.0/storage-pools" ps).Nodup) :
    create stepStack fuel (configOf ps ns prs cs) [] =
      (Except.ok (),
       urlsOf "/1.0/storage-pools" ps ++ urlsOf "/1.0/networks" ns ++
       urlsOf "/1.0/profiles" prs ++ urlsOf "/1.0/containers" cs,
       createReqs "/1.0/storage-pools" ps ++ createReqs "/1.0/networks" ns ++
       createReqs "/1.0/profiles" prs ++ createReqs "/1.0/containers" cs) ∧
    delete stepStack fuel (configOf ps ns prs cs)
        (urlsOf "/1.0/containers" cs ++ urlsOf "/1.0/profiles" prs ++
         urlsOf "/1.0/networks" ns ++ urlsOf "/1.0/storage-pools" ps) =
      (Except.ok (), [],
       deleteReqs "/1.0/containers" cs ++ deleteReqs "/1.0/profiles" prs ++
       deleteReqs "/1.0/networks" ns ++ deleteReqs "/1.0/storage-pools" ps) := by
  rcases nodup_append_parts hcreate with ⟨hABC, hD, hdisjABC⟩
  rcases nodup_append_parts hABC with ⟨hAB, hC, hdisjAB⟩
  rcases nodup_append_parts hAB with ⟨hA, hB, hdisjA⟩
  have hdel2 : (urlsOf "/1.0/containers" cs ++ (urlsOf "/1.0/profiles" prs ++
      (urlsOf "/1.0/networks" ns ++ urlsOf "/1.0/storage-pools" ps))).Nodup := by
    simpa [List.append_assoc] using hdelete
  rcases nodup_append_parts hdel2 with ⟨hD2, hCBA, hdisjD2⟩
  rcases nodup_append_parts hCBA with ⟨hC2, hBA, hdisjC2⟩
  rcases nodup_append_parts hBA with ⟨hB2, hA2, hdisjB2⟩
  have hc1 : collItems (configOf ps ns prs cs) "storage_pools" =
      Except.ok (ps.map specOf) := rfl
  have hc2 : collItems (configOf ps ns prs cs) "networks" =
      Except.ok (ns.map specOf) := rfl
  have hc3 : collItems (configOf ps ns prs cs) "profiles" =
      Except.ok (prs.map specOf) := rfl
  have hc4 : collItems (configOf ps ns prs cs) "containers" =
      Except.ok (cs.map specOf) := rfl
  constructor
  · have h1 := forEach_create_stepStack "/1.0/storage-pools" ps [] fuel rfl
      (fun n _ e he => absurd he (List.not_mem_nil e)) hA
    have h2 := forEach_create_stepStack "/1.0/networks" ns
      ([] ++ urlsOf "/1.0/storage-pools" ps) fuel rfl
      (by
        intro n hn e he hcontra
        have heA : e ∈ urlsOf "/1.0/storage-pools" ps := by simpa using he
        have heB : e ∈ urlsOf "/1.0/networks" ns := by
          rw [hcontra]
          exact List.mem_map.mpr ⟨n, hn, rfl⟩
        exact hdisjA e heA heB) hB
    have h3 := forEach_create_stepStack "/1.0/profiles" prs
      (([] ++ urlsOf "/1.0/storage-pools" ps) ++ urlsOf "/1.0/networks" ns) fuel rfl
      (by
        intro n hn e he hcontra
        have heC : e ∈ urlsOf "/1.0/profiles" prs := by
          rw [hcontra]
          exact List.mem_map.mpr ⟨n, hn, rfl⟩
        have heAB : e ∈ urlsOf "/1.0/storage-pools" ps ++ urlsOf "/1.0/networks" ns := by
          simpa using he
        exact hdisjAB e heAB heC) hC
    have h4 := forEach_create_stepStack "/1.0/containers" cs
      ((([] ++ urlsOf "/1.0/storage-pools" ps) ++ urlsOf "/1.0/networks" ns) ++
        urlsOf "/1.0/profiles" prs) fuel rfl
      (by
        intro n hn e he hcontra
        have heD : e ∈ urlsOf "/1.0/containers" cs := by
          rw [hcontra]
          exact List.mem_map.mpr ⟨n, hn, rfl⟩
        have heABC : e ∈ urlsOf "/1.0/storage-pools" ps ++ urlsOf "/1.0/networks" ns ++
            urlsOf "/1.0/profiles" prs := by
          simpa using he
        exact hdisjABC e heABC heD) hD
    unfold create
    simp only [hc1, hc2, hc3, hc4, liftE_ok_bind]
    simp only [bind_apply, h1, h2, h3, h4]
    simp [List.append_assoc]
  · have hd1 := forEach_delete_stepStack "/1.0/containers" cs
      (urlsOf "/1.0/profiles" prs ++ (urlsOf "/1.0/networks" ns ++
       urlsOf "/1.0/storage-pools" ps)) fuel (by simpa [List.append_assoc] using hdel2)
    have hd2 := forEach_delete_stepStack "/1.0/profiles" prs
      (urlsOf "/1.0/networks" ns ++ urlsOf "/1.0/storage-pools" ps) fuel hCBA
    have hd3 := forEach_delete_stepStack "/1.0/networks" ns
      (urlsOf "/1.0/storage-pools" ps) fuel hBA
    have hd4 := forEach_delete_stepStack "/1.0/storage-pools" ps [] fuel
      (by simpa using hA2)
    rw [List.append_nil] at hd4
    have hinit : urlsOf "/1.0/containers" cs ++ urlsOf "/1.0/profiles" prs ++
        urlsOf "/1.0/networks" ns ++ urlsOf "/1.0/storage-pools" ps =
        urlsOf "/1.0/containers" cs ++ (urlsOf "/1.0/profiles" prs ++
        (urlsOf "/1.0/networks" ns ++ urlsOf "/1.0/storage-pools" ps)) := by
      simp [List.append_assoc]
    rw [hinit]
    unfold delete
    simp only [hc1, hc2, hc3, hc4, liftE_ok_bind]
    simp only [bind_apply, hd1, hd2, hd3, hd4]
    simp [List.append_assoc]

/-- Witness for C4 at a concrete populated configuration. -/
theorem C4_ordering_witness :
    create stepStack 1 (configOf ["p1"] ["n1"] ["pr1"] ["c1", "c2"]) [] =
      (Except.ok (),
       urlsOf "/1.0/storage-pools" ["p1"] ++ urlsOf "/1.0/networks" ["n1"] ++
       urlsOf "/1.0/profiles" ["pr1"] ++ urlsOf "/1.0/containers" ["c1", "c2"],
       createReqs "/1.0/storage-pools" ["p1"] ++ createReqs "/1.0/networks" ["n1"] ++
       createReqs "/1.0/profiles" ["pr1"] ++ createReqs "/1.0/containers" ["c1", "c2"]) ∧
    delete stepStack 1 (configOf ["p1"] ["n1"] ["pr1"] ["c1", "c2"])
        (urlsOf "/1.0/containers" ["c1", "c2"] ++ urlsOf "/1.0/profiles" ["pr1"] ++
         urlsOf "/1.0/networks" ["n1"] ++ urlsOf "/1.0/storage-pools" ["p1"]) =
      (Except.ok (), [],
       deleteReqs "/1.0/containers" ["c1", "c2"] ++ deleteReqs "/1.0/profiles" ["pr1"] ++
       deleteReqs "/1.0/networks" ["n1"] ++ deleteReqs "/1.0/storage-pools" ["p1"]) :=
  C4_ordering ["p1"] ["n1"] ["pr1"] ["c1", "c2"] 1 (by decide) (by decide)

/-! ### Claim C8 -/

/-- Sequential execution of a list of lifecycle actions, the shape of every
orchestrator run. -/
def runSeq {H : Type} : List (M H Unit) → M H Unit
  | [] => pure ()
  | a :: rest => a >>= fun _ => runSeq rest

theorem pure_ok_bind {H α β : Type} (a : α) (f : α → M H β) :
    ((pure a : M H α) >>= f) = f a := by
  funext h
  rw [bind_apply, pure_apply]
  dsimp only
  rcases hf : f a h with ⟨res, h2, t2⟩
  simp

theorem M_bind_assoc {H α β γ : Type} (x : M H α) (f : α → M H β) (g : β → M H γ) :
    ((x >>= f) >>= g) = (x >>= fun a => f a >>= g) := by
  funext h
  rcases hx : x h with ⟨res, h1, t1⟩
  cases res with
  | error e => simp [bind_apply, hx]
  | ok a =>
    rcases hf : f a h1 with ⟨res2, h2, t2⟩
    cases res2 with
    | error e2 => simp [bind_apply, hx, hf]
    | ok b =>
      rcases hg : g b h2 with ⟨res3, h3, t3⟩
      simp [bind_apply, hx, hf, hg, List.append_assoc]

theorem runSeq_append {H : Type} (l1 l2 : List (M H Unit)) :
    runSeq (l1 ++ l2) = (runSeq l1 >>= fun _ => runSeq l2) := by
  induction l1 with
  | nil =>
    rw [List.nil_append]
    rw [show runSeq ([] : List (M H Unit)) = pure () from rfl, pure_ok_bind]
  | cons a l1 ih =>
    show (a >>= fun _ => runSeq (l1 ++ l2)) = ((a >>= fun _ => runSeq l1) >>= fun _ => runSeq l2)
    rw [M_bind_assoc]
    simp only [ih]

theorem forEach_eq_runSeq {H α : Type} (l : List α) (f : α → M H Unit) :
    forEach l f = runSeq (l.map f) := by
  induction l with
  | nil => rfl
  | cons a rest ih =>
    show (f a >>= fun _ => forEach rest f) = (f a >>= fun _ => runSeq (rest.map f))
    rw [ih]

/-- Sequential runs fail fast: an erroring run splits into a successful
prefix, the failing action, and nothing after it — the trace is exactly the
prefix trace followed by the failing action's trace. -/
theorem runSeq_error_split {H : Type} (acts : List (M H Unit)) (h : H) (e : Err)
    (h' : H) (t : List Request)
    (hrun : runSeq acts h = (Except.error e, h', t)) :
    ∃ (k : Nat) (hk : k < acts.length) (hmid : H) (tpre ta : List Request),
      runSeq (acts.take k) h = (Except.ok (), hmid, tpre) ∧
      (acts.get ⟨k, hk⟩) hmid = (Except.error e, h', ta) ∧
      t = tpre ++ ta := by
  induction acts generalizing h t with
  | nil =>
    rw [show runSeq ([] : List (M H Unit)) = pure () from rfl, pure_apply] at hrun
    exact absurd (congrArg Prod.fst hrun) (by simp)
  | cons a rest ih =>
    rw [show runSeq (a :: rest) = (a >>= fun _ => runSeq rest) from rfl, bind_apply] at hrun
    rcases ha : a h with ⟨res1, h1, t1⟩
    rw [ha] at hrun
    cases res1 with
    | error e1 =>
      injection hrun with h1eq h2eq
      injection h2eq with h2a h2b
      refine ⟨0, by simp, h, [], t1, ?_, ?_, ?_⟩
      · rw [show (a :: rest).take 0 = [] from rfl]
        rfl
      · rw [show (a :: rest).get ⟨0, by simp⟩ = a from rfl, ha, ← h1eq, h2a]
      · rw [h2b]
        simp
    | ok u =>
      dsimp only at hrun
      rcases hr : runSeq rest h1 with ⟨res2, h2, t2⟩
      rw [hr] at hrun
      dsimp only at hrun
      injection hrun with h1eq h2eq
      injection h2eq with h2a h2b
      subst h1eq
      subst h2a
      rcases ih h1 t2 hr with ⟨k, hk, hmid, tpre, ta, hp1, hp2, hp3⟩
      refine ⟨k + 1, by simpa using hk, hmid, t1 ++ tpre, ta, ?_, ?_, ?_⟩
      · rw [show (a :: rest).take (k + 1) = a :: rest.take k from rfl]
        rw [show runSeq (a :: rest.take k) = (a >>= fun _ => runSeq (rest.take k)) from rfl]
        rw [bind_apply, ha]
        dsimp only
        rw [hp1]
      · rw [show (a :: rest).get ⟨k + 1, by simpa using hk⟩ = rest.get ⟨k, hk⟩ from rfl]
        exact hp2
      · rw [← h2b, hp3]
        simp [List.append_assoc]

/-- The lifecycle actions an orchestrator run performs, in processing
order, for each command. -/
def cmdActs {H : Type} (step : H → Request → Json × H) (fuel : Nat)
    (cmd : Cmd) (ps ns prs cs : List Json) : List (M H Unit) :=
  match cmd with
  | Cmd.create =>
    ps.map (fun item => Resource.create step fuel (Resource.mk "/1.0/storage-pools" item)) ++
    (ns.map (fun item => Resource.create step fuel (Resource.mk "/1.0/networks" item)) ++
    (prs.map (fun item => Resource.create step fuel (Resource.mk "/1.0/profiles" item)) ++
     cs.map (fun item => Resource.create step fuel (Resource.mk "/1.0/containers" item))))
  | Cmd.start =>
    cs.map (fun item => Container.start step fuel (Resource.mk "/1.0/containers" item))
  | Cmd.stop =>
    cs.map (fun item => Container.stop step fuel (Resource.mk "/1.0/containers" item))
  | Cmd.delete =>
    cs.map (fun item => Resource.delete step fuel (Resource.mk "/1.0/containers" item)) ++
    (prs.map (fun item => Resource.delete step fuel (Resource.mk "/1.0/profiles" item)) ++
    (ns.map (fun item => Resource.delete step fuel (Resource.mk "/1.0/networks" item)) ++
     ps.map (fun item => Resource.delete step fuel (Resource.mk "/1.0/storage-pools" item))))

/-- Every orchestrator command is the sequential run of its action list. -/
theorem applyCmd_eq_runSeq {H : Type} (step : H → Request → Json × H) (fuel : Nat)
    (cmd : Cmd) (config : Json) (ps ns prs cs : List Json)
    (hp : collItems config "storage_pools" = Except.ok ps)
    (hn : collItems config "networks" = Except.ok ns)
    (hpr : collItems config "profiles" = Except.ok prs)
    (hc : collItems config "containers" = Except.ok cs) :
    applyCmd step fuel cmd config = runSeq (cmdActs step fuel cmd ps ns prs cs) := by
  cases cmd with
  | create =>
    unfold applyCmd create cmdActs
    simp only [hp, hn, hpr, hc, liftE_ok_bind, forEach_eq_runSeq, runSeq_append]
  | start =>
    unfold applyCmd start cmdActs
    simp only [hc, liftE_ok_bind, forEach_eq_runSeq]
  | stop =>
    unfold applyCmd stop cmdActs
    simp only [hc, liftE_ok_bind, forEach_eq_runSeq]
  | delete =>
    unfold applyCmd delete cmdActs
    simp only [hp, hn, hpr, hc, liftE_ok_bind, forEach_eq_runSeq, runSeq_append]

/-- C8: for every orchestrator run (create, start, stop or delete over a
stack configuration) in which some lifecycle call fails, the run aborts by
exception propagation: there is a position k such that every action before
k has been applied (the successful prefix ran from the initial hypervisor
state to the failing action's entry state), the k-th action fails, and the
request trace is exactly the prefix trace followed by the failing action's
trace — nothing after the failing call is ever issued. -/
theorem C8_fail_fast {H : Type} (step : H → Request → Json × H) (fuel : Nat)
    (cmd : Cmd) (config : Json) (ps ns prs cs : List Json) (h h' : H) (e : Err)
    (t : List Request)
    (hp : collItems config "storage_pools" = Except.ok ps)
    (hn : collItems config "networks" = Except.ok ns)
    (hpr : collItems config "profiles" = Except.ok prs)
    (hc : collItems config "containers" = Except.ok cs)
    (hrun : applyCmd step fuel cmd config h = (Except.error e, h', t)) :
    ∃ (k : Nat) (hk : k < (cmdActs step fuel cmd ps ns prs cs).length) (hmid : H)
      (tpre ta : List Request),
      runSeq ((cmdActs step fuel cmd ps ns prs cs).take k) h = (Except.ok (), hmid, tpre) ∧
      ((cmdActs step fuel cmd ps ns prs cs).get ⟨k, hk⟩) hmid = (Except.error e, h', ta) ∧
      t = tpre ++ ta := by
  rw [applyCmd_eq_runSeq step fuel cmd config ps ns prs cs hp hn hpr hc] at hrun
  exact runSeq_error_split (cmdActs step fuel cmd ps ns prs cs) h e h' t hrun

/-- Witness for C8: a create run over one container against an
error-responding hypervisor fails at its first action. -/
theorem C8_fail_fast_witness :
    ∃ (k : Nat)
      (hk : k < (cmdActs (stepConst (Json.obj [("type", Json.str "error")])) 1 Cmd.create
        [] [] [] [specOf "c1"]).length) (hmid : Unit) (tpre ta : List Request),
      runSeq ((cmdActs (stepConst (Json.obj [("type", Json.str "error")])) 1 Cmd.create
        [] [] [] [specOf "c1"]).take k) () = (Except.ok (), hmid, tpre) ∧
      ((cmdActs (stepConst (Json.obj [("type", Json.str "error")])) 1 Cmd.create
        [] [] [] [specOf "c1"]).get ⟨k, hk⟩) hmid =
        (Except.error (Err.hypervisorError (Json.obj [("type", Json.str "error")])), (),
         ta) ∧
      [Request.mk Method.get (api_url ++ "/1.0/containers") none] = tpre ++ ta :=
  C8_fail_fast (stepConst (Json.obj [("type", Json.str "error")])) 1 Cmd.create
    (Json.obj [("containers", Json.arr [specOf "c1"])]) [] [] [] [specOf "c1"]
    () () (Err.hypervisorError (Json.obj [("type", Json.str "error")]))
    [Request.mk Method.get (api_url ++ "/1.0/containers") none]
    rfl rfl rfl rfl rfl

end ZebrLxd
